import Mathlib

/-!
Verification development for `csv_importer.py` (repository `redis_importer`).

The file shallowly embeds the program: the `CSV2Redis` class is modelled as
pure functions over an explicit Redis state, the record codec
(`json.dumps` / UTF-8 / `lzma` on encode, the reverse on decode) is modelled
as executable Lean functions on character and byte lists, and Python
exceptions are modelled with an explicit error type threaded through the
state machine.  External library behaviour (the `json`, `lzma`, `csv` and
`redis` modules) is modelled from the documented behaviour those libraries
have on the inputs this program feeds them; each such modelling decision is
recorded in the doc comment of the corresponding definition.
-/

/-- Python exceptions that the embedded fragment of `csv_importer.py` can
raise, one constructor per distinct exception class observed in the model. -/
inductive PyError where
  | zeroDivisionError
  | indexError
  | sourceOpenError
  | keyError
  | typeError
  | decodeError
  | redisError
  deriving DecidableEq

/-! ## JSON values appearing in a serialized row

`csv.DictReader` produces a dict whose keys are the header field names (or
the rest key `None` for extra values) and whose values are strings, `None`
(for missing values) or a list of strings (the rest values).  These are the
only JSON shapes `json.dumps(row)` ever receives in `store_csv`. -/

/-- A key of the row dict: a header field name, or `None` (`restkey`) used by
`csv.DictReader` for the extra values of a long row. -/
inductive JKey where
  | field (name : String)
  | restkey
  deriving DecidableEq

/-- A value of the row dict: a field string, `None` (`restval`, used for the
missing values of a short row), or the list of extra values of a long row. -/
inductive JVal where
  | s (v : String)
  | null
  | arr (vs : List String)
  deriving DecidableEq

/-- The string which `json.dumps` prints (quoted) for a dict key: a string
key prints as itself, the key `None` prints as the string `null`. -/
def keyString : JKey → String
  | .field n => n
  | .restkey => "null"

/-! ## Assoc-list model of Python dicts (`dict` / `OrderedDict`)

A Python dict is an insertion-ordered map: assigning to an existing key
replaces its value in place, assigning a fresh key appends it. -/

/-- Models Python dict assignment `d[k] = v`: replace the value at the first
occurrence of `k` keeping its position, else append `(k, v)` at the end. -/
def odInsert [DecidableEq α] : List (α × β) → α → β → List (α × β)
  | [], k, v => [(k, v)]
  | p :: ps, k, v => if p.1 = k then (p.1, v) :: ps else p :: odInsert ps k v

/-- Models Python dict lookup `d[k]`: the value at the first occurrence of
`k`, if any. -/
def lookupFirst [DecidableEq α] : List (α × β) → α → Option β
  | [], _ => none
  | p :: ps, k => if p.1 = k then some p.2 else lookupFirst ps k

/-! ## `json.dumps` (encode side of the codec)

`store_csv` calls `json.dumps(row)` with the default options:
`ensure_ascii=True` (every character outside `0x20`–`0x7E` is escaped),
separators `", "` and `": "`, no sorting, no indent. -/

/-- Lowercase hex digit character for `d < 16`, as printed by `json.dumps`
inside a `\u` escape. -/
def hexDig (d : Nat) : Char :=
  Char.ofNat (if d < 10 then 48 + d else 87 + d)

/-- The four lowercase hex digits of `n < 0x10000`, most significant first. -/
def toHex4 (n : Nat) : List Char :=
  [hexDig (n / 4096 % 16), hexDig (n / 256 % 16), hexDig (n / 16 % 16), hexDig (n % 16)]

/-- One character of a JSON string as escaped by `json.dumps` with
`ensure_ascii=True`: `"` and `\` get a backslash escape, printable ASCII
(`0x20`–`0x7E`) passes through, `\b \t \n \f \r` use their short escapes,
every other BMP character becomes `\uXXXX`, and characters above `0xFFFF`
become a UTF-16 surrogate pair `\uXXXX\uXXXX`. -/
def escChar (c : Char) : List Char :=
  if c = '"' then ['\\', '"']
  else if c = '\\' then ['\\', '\\']
  else if 0x20 ≤ c.toNat ∧ c.toNat ≤ 0x7E then [c]
  else if c.toNat = 8 then ['\\', 'b']
  else if c.toNat = 9 then ['\\', 't']
  else if c.toNat = 10 then ['\\', 'n']
  else if c.toNat = 12 then ['\\', 'f']
  else if c.toNat = 13 then ['\\', 'r']
  else if c.toNat < 0x10000 then '\\' :: 'u' :: toHex4 c.toNat
  else
    '\\' :: 'u' :: toHex4 (0xD800 + (c.toNat - 0x10000) / 0x400) ++
      '\\' :: 'u' :: toHex4 (0xDC00 + (c.toNat - 0x10000) % 0x400)

/-- JSON-escape a whole string (as a character list). -/
def jsonEscape : List Char → List Char
  | [] => []
  | c :: cs => escChar c ++ jsonEscape cs

/-- A JSON string literal: opening quote, escaped content, closing quote. -/
def quoteStr (s : String) : List Char :=
  '"' :: jsonEscape s.data ++ ['"']

/-- `json.dumps` of a list of strings (used for the rest values of a long
row), with the default item separator `", "`. -/
def arrItems : List String → List Char
  | [] => []
  | [x] => quoteStr x
  | x :: xs => quoteStr x ++ ',' :: ' ' :: arrItems xs

/-- `json.dumps` of one row-dict value. -/
def valChars : JVal → List Char
  | .s v => quoteStr v
  | .null => ['n', 'u', 'l', 'l']
  | .arr vs => '[' :: arrItems vs ++ [']']

/-- One `"key": value` member, with the default key separator `": "`. -/
def memberStr (p : JKey × JVal) : List Char :=
  quoteStr (keyString p.1) ++ ':' :: ' ' :: valChars p.2

/-- The members of an object joined by the default item separator `", "`. -/
def membersStr : List (JKey × JVal) → List Char
  | [] => []
  | [p] => memberStr p
  | p :: ps => memberStr p ++ ',' :: ' ' :: membersStr ps

/-- `json.dumps(row)` for an insertion-ordered dict `row`, as a character
list: `\x7b` members `\x7d` with the default separators. -/
def jsonDumpsChars (d : List (JKey × JVal)) : List Char :=
  '{' :: membersStr d ++ ['}']

/-! ## UTF-8 (`str.encode("UTF-8")` and the decoding done by `json.loads`) -/

/-- UTF-8 encoding of one Unicode scalar value, 1 to 4 bytes. -/
def utf8EncodeChar (c : Char) : List Nat :=
  let v := c.toNat
  if v < 0x80 then [v]
  else if v < 0x800 then [0xC0 + v / 64, 0x80 + v % 64]
  else if v < 0x10000 then [0xE0 + v / 4096, 0x80 + v / 64 % 64, 0x80 + v % 64]
  else [0xF0 + v / 0x40000, 0x80 + v / 4096 % 64, 0x80 + v / 64 % 64, 0x80 + v % 64]

/-- UTF-8 encoding of a character list (models `str.encode("UTF-8")`). -/
def utf8Encode : List Char → List Nat
  | [] => []
  | c :: cs => utf8EncodeChar c ++ utf8Encode cs

/-- Whether `b` is a UTF-8 continuation byte `0x80`–`0xBF`. -/
def isCont (b : Nat) : Bool :=
  0x80 ≤ b ∧ b < 0xC0

/-- Strict UTF-8 decoding (models the implicit `bytes → str` decoding that
`json.loads` performs on its input): rejects truncated sequences, stray
continuation bytes, overlong encodings, surrogates and values above
`0x10FFFF`.  `fuel` bounds the recursion; one unit is spent per decoded
character, so any `fuel > ` number of bytes suffices. -/
def utf8Decode : Nat → List Nat → Option (List Char)
  | 0, _ => none
  | _ + 1, [] => some []
  | fuel + 1, b :: bs =>
    if b < 0x80 then
      (utf8Decode fuel bs).map (fun cs => Char.ofNat b :: cs)
    else if 0xC2 ≤ b ∧ b < 0xE0 then
      match bs with
      | b1 :: bs1 =>
        if isCont b1 then
          (utf8Decode fuel bs1).map (fun cs => Char.ofNat ((b - 0xC0) * 64 + (b1 - 0x80)) :: cs)
        else none
      | _ => none
    else if 0xE0 ≤ b ∧ b < 0xF0 then
      match bs with
      | b1 :: b2 :: bs2 =>
        if isCont b1 ∧ isCont b2 then
          let v := (b - 0xE0) * 4096 + (b1 - 0x80) * 64 + (b2 - 0x80)
          if 0x800 ≤ v ∧ (v < 0xD800 ∨ 0xDFFF < v) then
            (utf8Decode fuel bs2).map (fun cs => Char.ofNat v :: cs)
          else none
        else none
      | _ => none
    else if 0xF0 ≤ b ∧ b < 0xF5 then
      match bs with
      | b1 :: b2 :: b3 :: bs3 =>
        if isCont b1 ∧ isCont b2 ∧ isCont b3 then
          let v := (b - 0xF0) * 0x40000 + (b1 - 0x80) * 4096 + (b2 - 0x80) * 64 + (b3 - 0x80)
          if 0x10000 ≤ v ∧ v < 0x110000 then
            (utf8Decode fuel bs3).map (fun cs => Char.ofNat v :: cs)
          else none
        else none
      | _ => none
    else none

/-! ## `lzma` (FORMAT_XZ, CHECK_CRC64, preset 1)

The LZMA algorithm itself is an external library, not code of this
repository; it is modelled by its interface contract: `lzma.compress`
produces an xz container from which `lzma.decompress` recovers exactly the
original byte sequence, and `lzma.decompress` rejects a blob whose
integrity check fails.  The container is modelled as the xz magic bytes,
the payload, and an 8-byte little-endian checksum (a stand-in for CRC64). -/

/-- The xz stream header magic bytes. -/
def xzMagic : List Nat := [0xFD, 0x37, 0x7A, 0x58, 0x5A, 0x00]

/-- The 8 little-endian bytes of the model checksum of a payload. -/
def checkBytes (p : List Nat) : List Nat :=
  let n := (p.foldl (· + ·) 0) % 2 ^ 64
  [n % 256, n / 256 % 256, n / 256 ^ 2 % 256, n / 256 ^ 3 % 256,
   n / 256 ^ 4 % 256, n / 256 ^ 5 % 256, n / 256 ^ 6 % 256, n / 256 ^ 7 % 256]

/-- Models `lzma.compress(data, format=FORMAT_XZ, check=CHECK_CRC64, preset=1)`. -/
def lzmaCompress (p : List Nat) : List Nat :=
  xzMagic ++ p ++ checkBytes p

/-- Models `lzma.decompress` on blobs of the modelled container shape:
verifies the magic bytes and the checksum, returning the payload, and
returns `none` (the library would raise `LZMAError`) otherwise. -/
def lzmaDecompress (blob : List Nat) : Option (List Nat) :=
  if blob.take 6 = xzMagic then
    if 14 ≤ blob.length then
      let body := blob.drop 6
      let payload := body.take (body.length - 8)
      let check := body.drop (body.length - 8)
      if check = checkBytes payload then some payload else none
    else none
  else none

/-! ## `json.loads` (decode side of the codec)

`get_records` calls `json.loads` on the decompressed bytes of a blob the
encoder produced from a well-formed row, i.e. on the UTF-8 bytes of a JSON
object whose values are strings.  The parser below models `json.loads` on
exactly that sublanguage (objects with string keys and string values,
arbitrary JSON whitespace, the full JSON string-escape syntax including
surrogate pairs); like `json.loads` it rejects trailing garbage. -/

/-- Numeric value of a hex digit character (JSON accepts both cases). -/
def hexDigitVal (c : Char) : Option Nat :=
  let v := c.toNat
  if 48 ≤ v ∧ v ≤ 57 then some (v - 48)
  else if 97 ≤ v ∧ v ≤ 102 then some (v - 87)
  else if 65 ≤ v ∧ v ≤ 70 then some (v - 55)
  else none

/-- Parse exactly four hex digits into their value. -/
def parseHex4 : List Char → Option (Nat × List Char)
  | a :: b :: c :: d :: rest => do
    let x ← hexDigitVal a
    let y ← hexDigitVal b
    let z ← hexDigitVal c
    let w ← hexDigitVal d
    pure (((x * 16 + y) * 16 + z) * 16 + w, rest)
  | _ => none

/-- Prepend a decoded character to the result of parsing the rest of a
JSON string body. -/
def consParse (c : Char) (o : Option (List Char × List Char)) :
    Option (List Char × List Char) :=
  o.map (fun p => (c :: p.1, p.2))

/-- Parse the body of a JSON string up to and including the closing quote,
returning the decoded content and the remaining input.  A `\uXXXX` escape
carrying a high surrogate must be followed by a low-surrogate escape and the
pair is combined (as `json.loads` does for every string produced by
`json.dumps`).  Raw control characters are rejected (`strict=True`).
`fuel` bounds the recursion; one unit is spent per decoded character or
closing quote, so any `fuel > ` length of the input suffices. -/
def parseStrBody : Nat → List Char → Option (List Char × List Char)
  | 0, _ => none
  | _ + 1, [] => none
  | fuel + 1, c :: cs =>
    if c = '"' then some ([], cs)
    else if c = '\\' then
      match cs with
      | [] => none
      | e :: cs2 =>
        if e = '"' then consParse '"' (parseStrBody fuel cs2)
        else if e = '\\' then consParse '\\' (parseStrBody fuel cs2)
        else if e = '/' then consParse '/' (parseStrBody fuel cs2)
        else if e = 'b' then consParse (Char.ofNat 8) (parseStrBody fuel cs2)
        else if e = 't' then consParse (Char.ofNat 9) (parseStrBody fuel cs2)
        else if e = 'n' then consParse (Char.ofNat 10) (parseStrBody fuel cs2)
        else if e = 'f' then consParse (Char.ofNat 12) (parseStrBody fuel cs2)
        else if e = 'r' then consParse (Char.ofNat 13) (parseStrBody fuel cs2)
        else if e = 'u' then
          match parseHex4 cs2 with
          | none => none
          | some (n, r1) =>
            if 0xD800 ≤ n ∧ n < 0xDC00 then
              match r1 with
              | e1 :: e2 :: r2 =>
                if e1 = '\\' ∧ e2 = 'u' then
                  match parseHex4 r2 with
                  | some (m, r3) =>
                    if 0xDC00 ≤ m ∧ m < 0xE000 then
                      consParse (Char.ofNat (0x10000 + (n - 0xD800) * 0x400 + (m - 0xDC00)))
                        (parseStrBody fuel r3)
                    else none
                  | none => none
                else none
              | _ => none
            else if 0xDC00 ≤ n ∧ n < 0xE000 then none
            else consParse (Char.ofNat n) (parseStrBody fuel r1)
        else none
    else if 0x20 ≤ c.toNat then consParse c (parseStrBody fuel cs)
    else none

/-- Skip JSON whitespace. -/
def skipWs : List Char → List Char
  | [] => []
  | c :: cs => if c = ' ' ∨ c = '\t' ∨ c = '\n' ∨ c = '\r' then skipWs cs else c :: cs

/-- Parse a JSON string literal (opening quote onward). -/
def parseJStr (cs : List Char) : Option (String × List Char) :=
  match cs with
  | c :: cs2 =>
    if c = '"' then (parseStrBody (cs2.length + 1) cs2).map (fun p => (⟨p.1⟩, p.2))
    else none
  | [] => none

/-- Parse one `"key": "value"` member. -/
def parseMember (cs : List Char) : Option ((String × String) × List Char) := do
  let (k, r1) ← parseJStr cs
  match skipWs r1 with
  | c :: r3 =>
    if c = ':' then do
      let (v, r5) ← parseJStr (skipWs r3)
      pure ((k, v), r5)
    else none
  | [] => none

/-- Parse the members of a nonempty object, starting at the first member's
opening quote, up to and including the closing brace.  One unit of `fuel`
is spent per member. -/
def parseMembersLoop : Nat → List Char → Option (List (String × String) × List Char)
  | 0, _ => none
  | fuel + 1, cs =>
    match parseMember cs with
    | none => none
    | some (p, r1) =>
      match skipWs r1 with
      | c :: r3 =>
        if c = '}' then some ([p], r3)
        else if c = ',' then
          match parseMembersLoop fuel (skipWs r3) with
          | some (ps, r5) => some (p :: ps, r5)
          | none => none
        else none
      | [] => none

/-- Parse a JSON object with string values, returning its members in
textual order (duplicates preserved) and the remaining input. -/
def parseObject (cs : List Char) : Option (List (String × String) × List Char) :=
  match skipWs cs with
  | c :: r2 =>
    if c = '{' then
      match skipWs r2 with
      | d :: r4 =>
        if d = '}' then some ([], r4)
        else parseMembersLoop (d :: r4).length (d :: r4)
      | [] => none
    else none
  | [] => none

/-- Models `json.loads` on the sublanguage the codec emits: parse one
object, reject trailing garbage, and return the member list in textual
order (before dict construction). -/
def jsonLoadsPairs (cs : List Char) : Option (List (String × String)) :=
  match parseObject cs with
  | some (ps, rest) => if skipWs rest = [] then some ps else none
  | none => none

/-! ## The record codec of `CSV2Redis` -/

/-- A stored blob: a byte sequence (each element `< 256`). -/
abbrev Blob := List Nat

/-- Encode one row dict exactly as `store_csv` does:
`lzma.compress(json.dumps(row).encode("UTF-8"), ...)`. -/
def encodePairs (d : List (JKey × JVal)) : Blob :=
  lzmaCompress (utf8Encode (jsonDumpsChars d))

/-- A record as the spec's data model has it: an ordered mapping from field
name to field value, one entry per column. -/
abbrev RecordPairs := List (String × String)

/-- View a record (all-string fields) as a row dict. -/
def recordToRow (r : RecordPairs) : List (JKey × JVal) :=
  r.map (fun p => (JKey.field p.1, JVal.s p.2))

/-- Encode a record with all-string fields (the `encode` direction of the
codec round-trip law). -/
def encodeRecord (r : RecordPairs) : Blob :=
  encodePairs (recordToRow r)

/-- Decode one blob exactly as `get_records` does:
`OrderedDict(json.loads(lzma.decompress(r)))`.  The member list from the
JSON parser is folded into a dict (insertion order, last value wins), which
is what both `json.loads` and the `OrderedDict` copy produce. -/
def decodeBlob (b : Blob) : Option RecordPairs := do
  let payload ← lzmaDecompress b
  let chars ← utf8Decode (payload.length + 1) payload
  let ps ← jsonLoadsPairs chars
  pure (List.foldl (fun d p => odInsert d p.1 p.2) [] ps)

/-! ## Redis state -/

/-- The keyspace of one Redis logical database: each key holds a list of
blobs in `RPUSH` order. -/
abbrev Db := List (String × List Blob)

/-- Models `RPUSH key blob`: append to the list at `key`, creating it at the
end of the keyspace if absent. -/
def dbRpush : Db → String → Blob → Db
  | [], k, b => [(k, [b])]
  | p :: ps, k, b => if p.1 = k then (p.1, p.2 ++ [b]) :: ps else p :: dbRpush ps k b

/-- Models `LRANGE key 0 -1`: the whole list at `key`, empty if absent. -/
def dbLrangeAll : Db → String → List Blob
  | [], _ => []
  | p :: ps, k => if p.1 = k then p.2 else dbLrangeAll ps k

/-- The modelled state of the Redis connection: the keyspace of the selected
database, and how many background saves have been requested. -/
structure RedisState where
  db : Db
  bgsaves : Nat
  deriving DecidableEq

/-! ## CSV source model

The source file is modelled as its raw text.  `csv.reader` with the
`excel` dialect is modelled for input without quote characters (the only
kind this development feeds it): each physical line is one row, split on
commas, and an empty physical line is the empty row `[]`, which
`csv.DictReader` skips. -/

/-- Split a character list on a separator character. -/
def splitOnChar (sep : Char) : List Char → List (List Char)
  | [] => [[]]
  | c :: cs =>
    if c = sep then [] :: splitOnChar sep cs
    else
      match splitOnChar sep cs with
      | x :: xs => (c :: x) :: xs
      | [] => [[c]]

/-- The physical lines of the file text: split on newline; a trailing
newline does not start a final empty line. -/
def fileLines (raw : String) : List String :=
  let parts := splitOnChar '\n' raw.data
  let parts := if parts.getLast? = some [] then parts.dropLast else parts
  parts.map (fun cs => ⟨cs⟩)

/-- One parsed CSV row (quote-free input): an empty line is the empty row,
otherwise the comma-separated fields. -/
def csvParseLine (l : String) : List String :=
  if l = "" then [] else (splitOnChar ',' l.data).map (fun cs => ⟨cs⟩)

/-- Models `CSV2Redis._get_record_count`: the file is read in chunks and the
newline characters are counted, so the result is the number of `\n`
characters in the file text. -/
def getRecordCountModel (raw : String) : Nat :=
  raw.data.countP (fun c => c = '\n')

/-- Models Python `round(x, -2)` on a nonnegative integer: round to the
nearest multiple of 100, ties to the even multiple. -/
def pyRoundHundred (x : Nat) : Nat :=
  let q := x / 100
  let r := x % 100
  if r < 50 then q * 100
  else if 50 < r then (q + 1) * 100
  else if q % 2 = 0 then q * 100 else (q + 1) * 100

/-- `check_count = round(n_records // 20, -2)` from `store_csv`. -/
def checkCount (nRecords : Nat) : Nat :=
  pyRoundHundred (nRecords / 20)

/-- Models the row dict built by `csv.DictReader.__next__` from the header
and one row's values: `dict(zip(fieldnames, row))`, then missing fields are
assigned `restval` (`None`) and extra values are assigned under `restkey`
(`None`) as a list. -/
def buildRowDict (header vals : List String) : List (JKey × JVal) :=
  let base := (header.zip vals).foldl
    (fun d kv => odInsert d (JKey.field kv.1) (JVal.s kv.2)) []
  if vals.length < header.length then
    (header.drop vals.length).foldl (fun d k => odInsert d (JKey.field k) JVal.null) base
  else if header.length < vals.length then
    odInsert base JKey.restkey (JVal.arr (vals.drop header.length))
  else base

/-- One iteration of the `for row in reader` loop of `store_csv`, for the
physical line `line` with 1-based line number `lineNum`:

* an empty row is skipped inside `DictReader` (the body never runs);
* `key = reader.fieldnames[0]` raises `IndexError` on an empty header;
* `reader.line_num % check_count` raises `ZeroDivisionError` when
  `check_count = 0`; when it is nonzero the branch only formats a debug
  message and has no other effect;
* the row dict is serialized and compressed, and
  `self.redis.rpush(row[key], compressed_row)` appends the blob under the
  row's value for the first header field (redis-py raises on a `None`
  key, modelled as `typeError`). -/
def rowStep (header : List String) (cc : Nat) (db : Db) (lineNum : Nat)
    (line : String) : Db × Option PyError :=
  let vals := csvParseLine line
  if vals = [] then (db, none)
  else
    match header with
    | [] => (db, some .indexError)
    | key :: _ =>
      let row := buildRowDict header vals
      if cc = 0 then (db, some .zeroDivisionError)
      else
        let _onCheckpoint := decide (lineNum % cc = 0)
        let blob := encodePairs row
        match lookupFirst row (JKey.field key) with
        | some (JVal.s rk) => (dbRpush db rk blob, none)
        | some _ => (db, some .typeError)
        | none => (db, some .keyError)

/-- The `for row in reader` loop over the data lines: the first raised
exception leaves the loop (the `try` in `store_csv` wraps the whole loop),
keeping every store performed so far. -/
def processLines (header : List String) (cc : Nat) :
    Db → Nat → List String → Db × Option PyError
  | db, _, [] => (db, none)
  | db, ln, l :: rest =>
    match rowStep header cc db ln l with
    | (db', none) => processLines header cc db' (ln + 1) rest
    | (db', some e) => (db', some e)

/-- Models positional lookup in Python `str.format`: every placeholder index
must be smaller than the number of arguments, otherwise `IndexError`.  The
`except` handler of `store_csv` formats its log message with placeholder
indices 1 and 2 but passes only two arguments. -/
def pyFormatIndices (idxs : List Nat) (nargs : Nat) : Except PyError Unit :=
  if idxs.all (fun i => decide (i < nargs)) then .ok () else .error .indexError

/-- Models `CSV2Redis.store_csv(csv_file)` on an explicit Redis state.
`src = none` models a path that cannot be opened.  Steps, in source order:

1. `self.redis.flushdb()` clears the keyspace unconditionally;
2. `open(csv_file)` — on failure the exception propagates (the keyspace is
   already cleared and `bgsave` is not reached);
3. `_get_record_count` counts newlines and `check_count` is derived;
4. the header line is consumed by `DictReader` and the loop runs over the
   remaining lines;
5. if the loop raised, the `except` handler formats its error message with
   bad placeholder indices, so the handler itself raises `IndexError`,
   which propagates out of `store_csv` before `bgsave`;
6. otherwise `self.redis.bgsave()` is requested once and the call returns. -/
def store_csv (st : RedisState) (src : Option String) :
    RedisState × Except PyError Unit :=
  let st1 : RedisState := ⟨[], st.bgsaves⟩
  match src with
  | none => (st1, .error .sourceOpenError)
  | some raw =>
    match fileLines raw with
    | [] => (⟨st1.db, st1.bgsaves + 1⟩, .ok ())
    | headerLine :: dataLines =>
      let cc := checkCount (getRecordCountModel raw)
      let header := csvParseLine headerLine
      match processLines header cc st1.db 2 dataLines with
      | (db', none) => (⟨db', st1.bgsaves + 1⟩, .ok ())
      | (db', some _e) =>
        match pyFormatIndices [1, 2] 2 with
        | .ok _ => (⟨db', st1.bgsaves + 1⟩, .ok ())
        | .error e2 => (⟨db', st1.bgsaves⟩, .error e2)

/-- Decode every blob of a list; the list comprehension in `get_records`
raises on the first undecodable blob. -/
def decodeAll : List Blob → Option (List RecordPairs)
  | [] => some []
  | b :: bs => do
    let r ← decodeBlob b
    let rs ← decodeAll bs
    pure (r :: rs)

/-- Models `CSV2Redis.get_records(key)`: `LRANGE key 0 -1`, then decode
every returned blob in order.  The state component of the result is the
state after the call. -/
def get_records (st : RedisState) (key : String) :
    RedisState × Except PyError (List RecordPairs) :=
  let blobs := dbLrangeAll st.db key
  match decodeAll blobs with
  | some rs => (st, .ok rs)
  | none => (st, .error .decodeError)

/-! ## Constructor model (`CSV2Redis.__init__`) -/

/-- Outcome of constructing the engine: a usable instance, or a process
exit with the given code. -/
inductive InitOutcome where
  | ready
  | exited (code : Nat)
  deriving DecidableEq

/-- Models the first remote operation issued by the constructor.
`redis.Redis(...)` builds a client without any network I/O; the call
`self.redis.info('server')` — evaluated eagerly as the argument of
`logger.debug` regardless of the log level — is the first command actually
sent, and redis-py raises a `redis.RedisError` (a `ConnectionError`) from
it when the store is unreachable. -/
def redisInfoServer (reachable : Bool) : Except PyError Unit :=
  if reachable then .ok () else .error .redisError

/-- Models `CSV2Redis.__init__`: issue the health-check operation; on
`redis.RedisError` the handler logs and calls `sys.exit(1)`.  Construction
takes no source file, so no source row can have been read at this point. -/
def csv2redisInit (reachable : Bool) : InitOutcome :=
  match redisInfoServer reachable with
  | .ok _ => .ready
  | .error _ => .exited 1

/-! ## Auxiliary notions used by the statements and proofs -/

/-- Every character of the list is ASCII.  `json.dumps` with
`ensure_ascii=True` only ever outputs such characters. -/
def asciiOnly (l : List Char) : Prop := ∀ c ∈ l, c.toNat < 128

/-- The effect on the keyspace of one successfully processed physical line:
an empty line is skipped; any other line — well-formed or ragged — has its
row dict encoded and appended under the row's first field value. -/
def storeRowModel (header : List String) (db : Db) (line : String) : Db :=
  let vals := csvParseLine line
  if vals = [] then db
  else dbRpush db (vals.headD "") (encodePairs (buildRowDict header vals))

/-! # Proof layer -/

/-! ## The lzma model inverts -/

/-- The modelled lzma container decompresses to exactly the compressed
payload. -/
theorem lzmaDecompress_compress (p : List Nat) :
    lzmaDecompress (lzmaCompress p) = some p := by
  have h6 : xzMagic.length = 6 := rfl
  have h8 : (checkBytes p).length = 8 := rfl
  simp only [lzmaCompress, lzmaDecompress, List.append_assoc]
  rw [List.take_left' h6, if_pos rfl, List.drop_left' h6]
  have hlen : (p ++ checkBytes p).length = p.length + 8 := by
    simp [List.length_append, h8]
  rw [if_pos (by simp [List.length_append, h6, hlen]; omega)]
  simp only [hlen, Nat.add_sub_cancel]
  rw [List.take_left' rfl, List.drop_left' rfl, if_pos rfl]

/-! ## UTF-8 on ASCII content -/

/-- UTF-8 encoding of an all-ASCII character list is the list of its code
points. -/
theorem utf8Encode_ascii (l : List Char) (h : asciiOnly l) :
    utf8Encode l = l.map Char.toNat := by
  induction l with
  | nil => rfl
  | cons c cs ih =>
    have hc : c.toNat < 128 := h c (List.mem_cons_self c cs)
    have hcs : asciiOnly cs := fun x hx => h x (List.mem_cons_of_mem _ hx)
    simp [utf8Encode, utf8EncodeChar, if_pos hc, ih hcs]

/-- Strict UTF-8 decoding recovers an all-ASCII character list from its
code points. -/
theorem utf8Decode_ascii (l : List Char) (h : asciiOnly l) :
    ∀ fuel, l.length < fuel → utf8Decode fuel (l.map Char.toNat) = some l := by
  induction l with
  | nil =>
    intro fuel hf
    match fuel, hf with
    | fuel + 1, _ => rfl
  | cons c cs ih =>
    intro fuel hf
    have hc : c.toNat < 128 := h c (List.mem_cons_self c cs)
    have hcs : asciiOnly cs := fun x hx => h x (List.mem_cons_of_mem _ hx)
    match fuel, hf with
    | fuel + 1, hf =>
      have hrec := ih hcs fuel (by simpa using Nat.lt_of_succ_lt_succ hf)
      simp [utf8Decode, if_pos hc, hrec, Char.ofNat_toNat]

/-! ## Hex digits -/

/-- Parsing inverts printing for a single hex digit. -/
theorem hexDigitVal_hexDig (d : Nat) (h : d < 16) :
    hexDigitVal (hexDig d) = some d := by
  interval_cases d <;> rfl

/-- A hex digit character is ASCII. -/
theorem hexDig_ascii (d : Nat) (h : d < 16) : (hexDig d).toNat < 128 := by
  interval_cases d <;> decide

/-- Parsing inverts printing for a four-digit hex group. -/
theorem parseHex4_toHex4 (n : Nat) (h : n < 0x10000) (rest : List Char) :
    parseHex4 (toHex4 n ++ rest) = some (n, rest) := by
  have h1 : n / 4096 % 16 < 16 := Nat.mod_lt _ (by omega)
  have h2 : n / 256 % 16 < 16 := Nat.mod_lt _ (by omega)
  have h3 : n / 16 % 16 < 16 := Nat.mod_lt _ (by omega)
  have h4 : n % 16 < 16 := Nat.mod_lt _ (by omega)
  have key : (n / 4096 % 16 * 16 + n / 256 % 16) * 16 * 16 +
      (n / 16 % 16 * 16 + n % 16) = n := by omega
  simp only [toHex4, List.cons_append, List.nil_append, parseHex4,
    hexDigitVal_hexDig _ h1, hexDigitVal_hexDig _ h2, hexDigitVal_hexDig _ h3,
    hexDigitVal_hexDig _ h4, Option.bind_some, Option.some_bind, Option.pure_def]
  simp only [Option.bind_eq_bind, Option.some_bind, Option.some.injEq, Prod.mk.injEq]
  exact ⟨by omega, trivial⟩

/-! ## JSON string escaping inverts -/

/-- The scalar-value range of a `Char`: below the surrogates, or strictly
between the surrogates and `0x110000`. -/
theorem char_valid_range (c : Char) :
    c.toNat < 0xD800 ∨ (0xDFFF < c.toNat ∧ c.toNat < 0x110000) := c.valid

/-- A `\uXXXX\uXXXX` surrogate-pair escape parses to the combined scalar
value, consuming one unit of fuel. -/
theorem parseStrBody_pair (fuel : Nat) (cs : List Char) (hi lo : Nat)
    (hhiB : hi < 0x10000) (hhiR : 0xD800 ≤ hi ∧ hi < 0xDC00)
    (hloB : lo < 0x10000) (hloR : 0xDC00 ≤ lo ∧ lo < 0xE000) :
    parseStrBody (fuel + 1) ('\\' :: 'u' :: (toHex4 hi ++ ('\\' :: 'u' :: (toHex4 lo ++ cs)))) =
      consParse (Char.ofNat (0x10000 + (hi - 0xD800) * 0x400 + (lo - 0xDC00)))
        (parseStrBody fuel cs) := by
  simp only [parseStrBody, reduceIte, parseHex4_toHex4 _ hhiB, hhiR,
    parseHex4_toHex4 _ hloB, hloR]
  simp [hhiR, hloR]

set_option maxRecDepth 2000 in
/-- One escaped character parses back to exactly that character, consuming
one unit of fuel. -/
theorem parseStrBody_escChar (c : Char) (fuel : Nat) (cs : List Char) :
    parseStrBody (fuel + 1) (escChar c ++ cs) = consParse c (parseStrBody fuel cs) := by
  have hv := char_valid_range c
  by_cases hq : c = '"'
  · subst hq; simp [escChar, parseStrBody]
  by_cases hb : c = '\\'
  · subst hb; simp [escChar, parseStrBody]
  by_cases hpr : 0x20 ≤ c.toNat ∧ c.toNat ≤ 0x7E
  · simp [escChar, hq, hb, hpr, parseStrBody, hpr.1]
  by_cases h8 : c.toNat = 8
  · have hc : c = Char.ofNat 8 := by rw [← h8, Char.ofNat_toNat]
    simp [escChar, hq, hb, hpr, h8, parseStrBody]
    rw [hc]
  by_cases h9 : c.toNat = 9
  · have hc : c = Char.ofNat 9 := by rw [← h9, Char.ofNat_toNat]
    simp [escChar, hq, hb, hpr, h8, h9, parseStrBody]
    rw [hc]
  by_cases h10 : c.toNat = 10
  · have hc : c = Char.ofNat 10 := by rw [← h10, Char.ofNat_toNat]
    simp [escChar, hq, hb, hpr, h8, h9, h10, parseStrBody]
    rw [hc]
  by_cases h12 : c.toNat = 12
  · have hc : c = Char.ofNat 12 := by rw [← h12, Char.ofNat_toNat]
    simp [escChar, hq, hb, hpr, h8, h9, h10, h12, parseStrBody]
    rw [hc]
  by_cases h13 : c.toNat = 13
  · have hc : c = Char.ofNat 13 := by rw [← h13, Char.ofNat_toNat]
    simp [escChar, hq, hb, hpr, h8, h9, h10, h12, h13, parseStrBody]
    rw [hc]
  by_cases hbmp : c.toNat < 0x10000
  · have hs1 : ¬(0xD800 ≤ c.toNat ∧ c.toNat < 0xDC00) := by omega
    have hs2 : ¬(0xDC00 ≤ c.toNat ∧ c.toNat < 0xE000) := by omega
    simp only [escChar, hq, hb, hpr, h8, h9, h10, h12, h13, hbmp, if_true, if_false,
      if_neg, if_pos, List.cons_append, List.append_assoc]
    simp only [parseStrBody, reduceIte, parseHex4_toHex4 c.toNat hbmp, hs1, hs2,
      if_false, if_neg]
    simp [hq, hb, hpr, h8, h9, h10, h12, h13, hs1, hs2, Char.ofNat_toNat]
  · -- astral plane: surrogate-pair escape
    have hlt : c.toNat < 0x110000 := by omega
    have hhiB : 0xD800 + (c.toNat - 0x10000) / 0x400 < 0x10000 := by omega
    have hhiR : 0xD800 ≤ 0xD800 + (c.toNat - 0x10000) / 0x400 ∧
        0xD800 + (c.toNat - 0x10000) / 0x400 < 0xDC00 := by omega
    have hloB : 0xDC00 + (c.toNat - 0x10000) % 0x400 < 0x10000 := by omega
    have hloR : 0xDC00 ≤ 0xDC00 + (c.toNat - 0x10000) % 0x400 ∧
        0xDC00 + (c.toNat - 0x10000) % 0x400 < 0xE000 := by omega
    have hesc : escChar c ++ cs =
        '\\' :: 'u' :: (toHex4 (0xD800 + (c.toNat - 0x10000) / 0x400) ++
          ('\\' :: 'u' :: (toHex4 (0xDC00 + (c.toNat - 0x10000) % 0x400) ++ cs))) := by
      simp only [escChar, hq, hb, hpr, h8, h9, h10, h12, h13, hbmp, if_true, if_false,
        if_neg, if_pos, List.cons_append, List.append_assoc]
    have hchar : Char.ofNat (0x10000 + (0xD800 + (c.toNat - 0x10000) / 0x400 - 0xD800) * 0x400 +
        (0xDC00 + (c.toNat - 0x10000) % 0x400 - 0xDC00)) = c := by
      rw [show 0x10000 + (0xD800 + (c.toNat - 0x10000) / 0x400 - 0xD800) * 0x400 +
        (0xDC00 + (c.toNat - 0x10000) % 0x400 - 0xDC00) = c.toNat by omega, Char.ofNat_toNat]
    calc parseStrBody (fuel + 1) (escChar c ++ cs)
        = parseStrBody (fuel + 1)
            ('\\' :: 'u' :: (toHex4 (0xD800 + (c.toNat - 0x10000) / 0x400) ++
              ('\\' :: 'u' :: (toHex4 (0xDC00 + (c.toNat - 0x10000) % 0x400) ++ cs)))) := by
          rw [hesc]
      _ = consParse (Char.ofNat (0x10000 + (0xD800 + (c.toNat - 0x10000) / 0x400 - 0xD800) *
            0x400 + (0xDC00 + (c.toNat - 0x10000) % 0x400 - 0xDC00)))
            (parseStrBody fuel cs) :=
          parseStrBody_pair fuel cs _ _ hhiB hhiR hloB hloR
      _ = consParse c (parseStrBody fuel cs) := by rw [hchar]

/-- An escaped string followed by the closing quote parses back to the
string, for any sufficient fuel. -/
theorem parseStrBody_jsonEscape (s : List Char) :
    ∀ fuel cs, s.length < fuel →
      parseStrBody fuel (jsonEscape s ++ '"' :: cs) = some (s, cs) := by
  induction s with
  | nil =>
    intro fuel cs hf
    match fuel, hf with
    | fuel + 1, _ => simp [jsonEscape, parseStrBody]
  | cons c s ih =>
    intro fuel cs hf
    match fuel, hf with
    | fuel + 1, hf =>
      have h1 : s.length < fuel := by
        have := Nat.lt_of_succ_lt_succ (by simpa using hf)
        simpa using this
      simp only [jsonEscape, List.append_assoc]
      rw [parseStrBody_escChar, ih fuel cs h1]
      rfl

/-- Every escaped character occupies at least one character. -/
theorem one_le_escChar_length (c : Char) : 1 ≤ (escChar c).length := by
  unfold escChar
  split
  · simp
  split
  · simp
  split
  · simp
  split
  · simp
  split
  · simp
  split
  · simp
  split
  · simp
  split
  · simp
  split
  · simp [toHex4]
  simp [toHex4]

/-- Escaping does not shorten a string. -/
theorem length_le_jsonEscape (s : List Char) : s.length ≤ (jsonEscape s).length := by
  induction s with
  | nil => simp [jsonEscape]
  | cons c s ih =>
    have hc := one_le_escChar_length c
    simp only [jsonEscape, List.length_append, List.length_cons]
    omega

/-- A printed JSON string literal parses back to the string. -/
theorem parseJStr_quoteStr (s : String) (cs : List Char) :
    parseJStr (quoteStr s ++ cs) = some (s, cs) := by
  have hsplit : quoteStr s ++ cs = '"' :: (jsonEscape s.data ++ ('"' :: cs)) := by
    simp [quoteStr]
  rw [hsplit]
  have hlen : s.data.length < (jsonEscape s.data ++ ('"' :: cs)).length + 1 := by
    have := length_le_jsonEscape s.data
    simp only [List.length_append, List.length_cons]
    omega
  simp only [parseJStr, reduceIte, if_pos]
  rw [parseStrBody_jsonEscape s.data _ cs hlen]
  rfl

/-- `skipWs` is the identity on input starting with a JSON string. -/
theorem skipWs_quoteStr (v : String) (cs : List Char) :
    skipWs (quoteStr v ++ cs) = quoteStr v ++ cs := by
  simp [quoteStr, skipWs, List.cons_append]

/-- A printed member parses back to its key/value pair. -/
theorem parseMember_memberStr (k v : String) (cs : List Char) :
    parseMember (memberStr (JKey.field k, JVal.s v) ++ cs) = some ((k, v), cs) := by
  have h1 : memberStr (JKey.field k, JVal.s v) ++ cs =
      quoteStr k ++ (':' :: ' ' :: (quoteStr v ++ cs)) := by
    simp [memberStr, keyString, valChars, List.append_assoc]
  rw [h1]
  simp only [parseMember, parseJStr_quoteStr, Option.bind_eq_bind, Option.some_bind]
  have h2 : skipWs (':' :: ' ' :: (quoteStr v ++ cs)) = ':' :: ' ' :: (quoteStr v ++ cs) := by
    simp [skipWs]
  rw [h2]
  simp only [reduceIte]
  have h3 : skipWs (' ' :: (quoteStr v ++ cs)) = quoteStr v ++ cs := by
    rw [show skipWs (' ' :: (quoteStr v ++ cs)) = skipWs (quoteStr v ++ cs) by simp [skipWs]]
    exact skipWs_quoteStr v cs
  rw [h3, parseJStr_quoteStr]
  rfl

/-- A printed member list starts with a double quote. -/
theorem membersStr_cons_shape (p : String × String) (r : RecordPairs) :
    ∃ t, membersStr (recordToRow (p :: r)) = '"' :: t := by
  cases r with
  | nil =>
    refine ⟨jsonEscape p.1.data ++ ['"'] ++ (':' :: ' ' :: valChars (JVal.s p.2)), ?_⟩
    simp [recordToRow, membersStr, memberStr, keyString, quoteStr, List.append_assoc]
  | cons q r2 =>
    refine ⟨jsonEscape p.1.data ++ ['"'] ++ (':' :: ' ' :: valChars (JVal.s p.2)) ++
      ',' :: ' ' :: membersStr (recordToRow (q :: r2)), ?_⟩
    simp [recordToRow, membersStr, memberStr, keyString, quoteStr, List.append_assoc]

/-- A printed member occupies at least one character. -/
theorem one_le_memberStr_length (x : JKey × JVal) : 1 ≤ (memberStr x).length := by
  simp [memberStr, quoteStr]

/-- A printed member list is at least as long as the record. -/
theorem length_le_membersStr (r : RecordPairs) :
    r.length ≤ (membersStr (recordToRow r)).length := by
  induction r with
  | nil => simp [recordToRow, membersStr]
  | cons p r ih =>
    cases r with
    | nil =>
      have := one_le_memberStr_length (JKey.field p.1, JVal.s p.2)
      simpa [recordToRow, membersStr] using this
    | cons q r2 =>
      have h1 := one_le_memberStr_length (JKey.field p.1, JVal.s p.2)
      have h2 : (q :: r2).length ≤ (membersStr (recordToRow (q :: r2))).length := ih
      simp only [recordToRow, List.map_cons, membersStr, List.length_append,
        List.length_cons] at *
      omega

/-- The member loop parses a printed nonempty member list up to and
including the closing brace. -/
theorem parseMembersLoop_membersStr (r : RecordPairs) :
    ∀ fuel cs, r ≠ [] → r.length < fuel →
      parseMembersLoop fuel (membersStr (recordToRow r) ++ '}' :: cs) = some (r, cs) := by
  induction r with
  | nil => intro fuel cs hne _; exact absurd rfl hne
  | cons p r ih =>
    intro fuel cs _ hf
    match fuel, hf with
    | fuel + 1, hf =>
      cases r with
      | nil =>
        show parseMembersLoop (fuel + 1)
          (membersStr [(JKey.field p.1, JVal.s p.2)] ++ '}' :: cs) = some ([p], cs)
        simp only [membersStr, parseMembersLoop, parseMember_memberStr]
        have h2 : skipWs ('}' :: cs) = '}' :: cs := by simp [skipWs]
        rw [h2]
        simp
      | cons q r2 =>
        have hm : membersStr (recordToRow (p :: q :: r2)) ++ '}' :: cs =
            memberStr (JKey.field p.1, JVal.s p.2) ++
              (',' :: ' ' :: (membersStr (recordToRow (q :: r2)) ++ '}' :: cs)) := by
          simp [recordToRow, membersStr, List.append_assoc]
        rw [hm]
        simp only [parseMembersLoop, parseMember_memberStr]
        have h2 : skipWs (',' :: ' ' :: (membersStr (recordToRow (q :: r2)) ++ '}' :: cs)) =
            ',' :: ' ' :: (membersStr (recordToRow (q :: r2)) ++ '}' :: cs) := by
          simp [skipWs]
        rw [h2]
        simp only [reduceIte]
        obtain ⟨t, ht⟩ := membersStr_cons_shape q r2
        have h3 : skipWs (' ' :: (membersStr (recordToRow (q :: r2)) ++ '}' :: cs)) =
            membersStr (recordToRow (q :: r2)) ++ '}' :: cs := by
          rw [show skipWs (' ' :: (membersStr (recordToRow (q :: r2)) ++ '}' :: cs)) =
            skipWs (membersStr (recordToRow (q :: r2)) ++ '}' :: cs) by simp [skipWs]]
          rw [ht]
          simp [skipWs]
        rw [h3]
        have h4 : (q :: r2).length < fuel := by
          have := Nat.lt_of_succ_lt_succ (by simpa using hf)
          simpa using this
        rw [ih fuel cs (by simp) h4]
        simp

/-- A dumped record parses back as one object covering the whole input. -/
theorem parseObject_dumps (r : RecordPairs) :
    parseObject (jsonDumpsChars (recordToRow r)) = some (r, []) := by
  cases r with
  | nil => rfl
  | cons p r2 =>
    obtain ⟨t, ht⟩ := membersStr_cons_shape p r2
    have hshape : jsonDumpsChars (recordToRow (p :: r2)) =
        '{' :: (membersStr (recordToRow (p :: r2)) ++ '}' :: []) := by
      simp [jsonDumpsChars]
    rw [hshape]
    simp only [parseObject]
    have h1 : skipWs ('{' :: (membersStr (recordToRow (p :: r2)) ++ '}' :: [])) =
        '{' :: (membersStr (recordToRow (p :: r2)) ++ '}' :: []) := by
      simp [skipWs]
    rw [h1]
    simp only [reduceIte]
    have h2 : skipWs (membersStr (recordToRow (p :: r2)) ++ '}' :: []) =
        membersStr (recordToRow (p :: r2)) ++ '}' :: [] := by
      rw [ht]; simp [skipWs]
    rw [h2]
    have hlen : (p :: r2).length <
        (membersStr (recordToRow (p :: r2)) ++ '}' :: []).length := by
      have hmem := length_le_membersStr (p :: r2)
      simp only [List.length_append, List.length_cons, List.length_nil] at hmem ⊢
      omega
    have hloop := parseMembersLoop_membersStr (p :: r2)
      (membersStr (recordToRow (p :: r2)) ++ '}' :: []).length [] (by simp) hlen
    rw [ht] at hloop ⊢
    simpa using hloop

/-- `json.loads` inverts `json.dumps` at the member-list level. -/
theorem jsonLoadsPairs_dumps (r : RecordPairs) :
    jsonLoadsPairs (jsonDumpsChars (recordToRow r)) = some r := by
  simp [jsonLoadsPairs, parseObject_dumps, skipWs]

/-! ## `json.dumps` output is ASCII -/

/-- Every character of a hex group is ASCII. -/
theorem toHex4_ascii (n : Nat) : asciiOnly (toHex4 n) := by
  intro x hx
  simp only [toHex4, List.mem_cons, List.not_mem_nil, or_false] at hx
  rcases hx with h | h | h | h <;> subst h <;>
    exact hexDig_ascii _ (Nat.mod_lt _ (by omega))

/-- Every character of an escaped character is ASCII. -/
theorem escChar_ascii (c : Char) : asciiOnly (escChar c) := by
  intro x hx
  unfold escChar at hx
  split at hx
  · simp only [List.mem_cons, List.not_mem_nil, or_false] at hx
    rcases hx with h | h <;> subst h <;> decide
  split at hx
  · simp only [List.mem_cons, List.not_mem_nil, or_false] at hx
    rcases hx with h | h <;> subst h <;> decide
  split at hx
  next hpr =>
    simp only [List.mem_cons, List.not_mem_nil, or_false] at hx
    subst hx
    omega
  split at hx
  · simp only [List.mem_cons, List.not_mem_nil, or_false] at hx
    rcases hx with h | h <;> subst h <;> decide
  split at hx
  · simp only [List.mem_cons, List.not_mem_nil, or_false] at hx
    rcases hx with h | h <;> subst h <;> decide
  split at hx
  · simp only [List.mem_cons, List.not_mem_nil, or_false] at hx
    rcases hx with h | h <;> subst h <;> decide
  split at hx
  · simp only [List.mem_cons, List.not_mem_nil, or_false] at hx
    rcases hx with h | h <;> subst h <;> decide
  split at hx
  · simp only [List.mem_cons, List.not_mem_nil, or_false] at hx
    rcases hx with h | h <;> subst h <;> decide
  split at hx
  · simp only [List.mem_cons, List.not_mem_nil, or_false] at hx
    rcases hx with h | h | h
    · subst h; decide
    · subst h; decide
    · exact toHex4_ascii _ x h
  · simp only [List.cons_append, List.mem_cons, List.mem_append,
      List.not_mem_nil, or_false] at hx
    rcases hx with h | h | h
    · subst h; decide
    · subst h; decide
    rcases h with h | h | h | h
    · exact toHex4_ascii _ x h
    · subst h; decide
    · subst h; decide
    · exact toHex4_ascii _ x h

/-- Every character of an escaped string is ASCII. -/
theorem jsonEscape_ascii (s : List Char) : asciiOnly (jsonEscape s) := by
  induction s with
  | nil => intro x hx; simp [jsonEscape] at hx
  | cons c cs ih =>
    intro x hx
    simp only [jsonEscape, List.mem_append] at hx
    rcases hx with h | h
    · exact escChar_ascii c x h
    · exact ih x h

/-- Every character of a JSON string literal is ASCII. -/
theorem quoteStr_ascii (s : String) : asciiOnly (quoteStr s) := by
  intro x hx
  simp only [quoteStr, List.cons_append, List.mem_cons, List.mem_append,
    List.not_mem_nil, or_false] at hx
  rcases hx with h | h | h
  · subst h; decide
  · exact jsonEscape_ascii _ x h
  · subst h; decide

/-- Every character of a printed all-string member list is ASCII. -/
theorem membersStr_ascii (r : RecordPairs) : asciiOnly (membersStr (recordToRow r)) := by
  induction r with
  | nil => intro x hx; simp [recordToRow, membersStr] at hx
  | cons p r ih =>
    intro x hx
    have hmem : ∀ y, y ∈ memberStr (JKey.field p.1, JVal.s p.2) → y.toNat < 128 := by
      intro y hy
      simp only [memberStr, keyString, valChars, List.append_assoc, List.cons_append,
        List.mem_append, List.mem_cons] at hy
      rcases hy with h | h
      · exact quoteStr_ascii _ y h
      rcases h with h | h | h
      · subst h; decide
      · subst h; decide
      · exact quoteStr_ascii _ y h
    cases r with
    | nil =>
      simp only [recordToRow, List.map_cons, List.map_nil, membersStr] at hx
      exact hmem x hx
    | cons q r2 =>
      simp only [recordToRow, List.map_cons, membersStr, List.mem_append,
        List.mem_cons] at hx
      rcases hx with h | h | h | h
      · exact hmem x h
      · subst h; decide
      · subst h; decide
      · exact ih x (by simpa [recordToRow] using h)

/-- Every character of a dumped all-string record is ASCII. -/
theorem jsonDumpsChars_ascii (r : RecordPairs) :
    asciiOnly (jsonDumpsChars (recordToRow r)) := by
  intro x hx
  simp only [jsonDumpsChars, List.cons_append, List.mem_cons, List.mem_append,
    List.not_mem_nil, or_false] at hx
  rcases hx with h | h | h
  · subst h; decide
  · exact membersStr_ascii r x h
  · subst h; decide

/-! ## Dict construction from a duplicate-free pair list -/

/-- Inserting a fresh key appends it. -/
theorem odInsert_append [DecidableEq α] (acc : List (α × β)) (k : α) (v : β)
    (h : k ∉ acc.map Prod.fst) : odInsert acc k v = acc ++ [(k, v)] := by
  induction acc with
  | nil => rfl
  | cons p ps ih =>
    simp only [List.map_cons, List.mem_cons] at h
    push_neg at h
    have hne : ¬ p.1 = k := fun hh => h.1 hh.symm
    simp only [odInsert, if_neg hne, List.cons_append, List.cons.injEq, true_and]
    exact ih h.2

/-- Folding dict insertion over a duplicate-free pair list disjoint from the
accumulator appends the list unchanged. -/
theorem foldl_odInsert_nodup (r : RecordPairs) :
    ∀ acc : RecordPairs, (r.map Prod.fst).Nodup →
      (∀ p ∈ r, p.1 ∉ acc.map Prod.fst) →
      List.foldl (fun d p => odInsert d p.1 p.2) acc r = acc ++ r := by
  induction r with
  | nil => intro acc _ _; simp
  | cons p r ih =>
    intro acc hnd hdisj
    have hnotin : p.1 ∉ r.map Prod.fst := by
      simp only [List.map_cons, List.nodup_cons] at hnd
      exact hnd.1
    have hndr : (r.map Prod.fst).Nodup := by
      simp only [List.map_cons, List.nodup_cons] at hnd
      exact hnd.2
    simp only [List.foldl_cons]
    rw [odInsert_append acc p.1 p.2 (hdisj p (List.mem_cons_self p r))]
    rw [ih (acc ++ [(p.1, p.2)]) hndr ?_]
    · simp
    · intro q hq
      simp only [List.map_append, List.mem_append, List.map_cons, List.map_nil,
        List.mem_cons, List.not_mem_nil, or_false]
      push_neg
      refine ⟨hdisj q (List.mem_cons_of_mem p hq), fun hqp => hnotin ?_⟩
      rw [← hqp]
      exact List.mem_map_of_mem Prod.fst hq

/-! ## Claim theorems -/

/-- Claim C1 (codec round-trip): for every record whose field values are
arbitrary strings — empty strings, delimiter characters, non-ASCII text —
decoding the encoded blob (JSON-serialize, UTF-8 encode, LZMA-compress on
encode; LZMA-decompress, UTF-8/JSON-parse on decode) yields the record
unchanged, field order included.  The hypothesis that field names do not
repeat is inherent to the data model: the row is a Python dict, which
cannot hold two entries with the same key. -/
theorem c1_codec_round_trip (r : RecordPairs) (h : (r.map Prod.fst).Nodup) :
    decodeBlob (encodeRecord r) = some r := by
  have hascii := jsonDumpsChars_ascii r
  have henc : utf8Encode (jsonDumpsChars (recordToRow r)) =
      (jsonDumpsChars (recordToRow r)).map Char.toNat := utf8Encode_ascii _ hascii
  unfold decodeBlob encodeRecord encodePairs
  rw [lzmaDecompress_compress]
  simp only [Option.bind_eq_bind, Option.some_bind]
  rw [henc, List.length_map]
  rw [utf8Decode_ascii _ hascii _ (Nat.lt_succ_self _)]
  simp only [Option.some_bind]
  rw [jsonLoadsPairs_dumps]
  simp only [Option.some_bind]
  rw [foldl_odInsert_nodup r [] h (by simp)]
  simp

/-- Witness for C1 at a concrete record exercising an empty value, an
embedded delimiter, quotes, a backslash, control characters, accented text
and an astral-plane character. -/
theorem c1_codec_round_trip_witness :
    (([("id", ""), ("näme", "a,b"), ("x", "say \"hi\" \\ ok"), ("music", "𝄞"),
        ("nl", "l1\nl2\t")].map Prod.fst).Nodup) ∧
      decodeBlob (encodeRecord [("id", ""), ("näme", "a,b"), ("x", "say \"hi\" \\ ok"),
        ("music", "𝄞"), ("nl", "l1\nl2\t")]) =
        some [("id", ""), ("näme", "a,b"), ("x", "say \"hi\" \\ ok"), ("music", "𝄞"),
          ("nl", "l1\nl2\t")] :=
  ⟨by decide, c1_codec_round_trip _ (by decide)⟩

/-! ## The ingestion loop when the progress interval is nonzero -/

/-- Inserting under a different key does not change a lookup. -/
theorem lookupFirst_odInsert_ne [DecidableEq α] (d : List (α × β)) (k k' : α) (v : β)
    (h : k' ≠ k) : lookupFirst (odInsert d k' v) k = lookupFirst d k := by
  induction d with
  | nil =>
    have : ¬ (k' = k) := h
    simp [odInsert, lookupFirst, this]
  | cons p ps ih =>
    simp only [odInsert]
    by_cases hp : p.1 = k'
    · rw [if_pos hp]
      have hpk : ¬ p.1 = k := by rw [hp]; exact h
      simp [lookupFirst, hpk]
    · rw [if_neg hp]
      simp only [lookupFirst]
      by_cases hpk : p.1 = k
      · simp [hpk]
      · simp [hpk, ih]

/-- Folding insertions whose keys all differ from `k` does not change the
lookup of `k`. -/
theorem lookupFirst_foldl_odInsert_ne {γ : Type} [DecidableEq α] (f : γ → α) (g : γ → β)
    (l : List γ) : ∀ (d : List (α × β)) (k : α), (∀ x ∈ l, f x ≠ k) →
      lookupFirst (List.foldl (fun acc x => odInsert acc (f x) (g x)) d l) k =
        lookupFirst d k := by
  induction l with
  | nil => intro d k _; rfl
  | cons x l ih =>
    intro d k hk
    simp only [List.foldl_cons]
    rw [ih _ k (fun y hy => hk y (List.mem_cons_of_mem x hy))]
    exact lookupFirst_odInsert_ne d k (f x) (g x) (hk x (List.mem_cons_self x l))

/-- For a duplicate-free header, the row dict maps the first header field to
the row's first value — for short, long and exact rows alike. -/
theorem lookupFirst_buildRowDict (h0 : String) (hs : List String) (v0 : String)
    (vs : List String) (hnd : (h0 :: hs).Nodup) :
    lookupFirst (buildRowDict (h0 :: hs) (v0 :: vs)) (JKey.field h0) = some (JVal.s v0) := by
  have hnotin : h0 ∉ hs := (List.nodup_cons.mp hnd).1
  have hbase : lookupFirst (((h0 :: hs).zip (v0 :: vs)).foldl
      (fun d kv => odInsert d (JKey.field kv.1) (JVal.s kv.2)) []) (JKey.field h0) =
      some (JVal.s v0) := by
    rw [List.zip_cons_cons]
    simp only [List.foldl_cons]
    rw [lookupFirst_foldl_odInsert_ne (fun kv => JKey.field kv.1) (fun kv => JVal.s kv.2)
      (hs.zip vs) _ _ ?_]
    · simp [odInsert, lookupFirst]
    · rintro ⟨a, b⟩ hab hcontra
      have ha : a ∈ hs := (List.of_mem_zip hab).1
      have : a = h0 := by injection hcontra
      exact hnotin (this ▸ ha)
  unfold buildRowDict
  by_cases hlt : (v0 :: vs).length < (h0 :: hs).length
  · rw [if_pos hlt]
    rw [lookupFirst_foldl_odInsert_ne (fun k => JKey.field k) (fun _ => JVal.null) _ _ _ ?_]
    · exact hbase
    · intro k hk hcontra
      have hk2 : k ∈ hs := by
        have : k ∈ (h0 :: hs).drop (vs.length + 1) := by simpa using hk
        rw [List.drop_succ_cons] at this
        exact List.drop_subset _ _ this
      have : k = h0 := by injection hcontra
      exact hnotin (this ▸ hk2)
  · rw [if_neg hlt]
    by_cases hgt : (h0 :: hs).length < (v0 :: vs).length
    · rw [if_pos hgt]
      rw [lookupFirst_odInsert_ne _ _ _ _ (by intro hcontra; exact JKey.noConfusion hcontra)]
      exact hbase
    · rw [if_neg hgt]
      exact hbase

/-- With a duplicate-free nonempty header and a nonzero progress interval,
one loop iteration never raises: it stores the encoded row dict — padded or
rest-keyed if the row is ragged — under the row's first value. -/
theorem rowStep_success (h0 : String) (hs : List String) (cc : Nat) (db : Db)
    (ln : Nat) (line : String) (hnd : (h0 :: hs).Nodup) (hcc : cc ≠ 0) :
    rowStep (h0 :: hs) cc db ln line = (storeRowModel (h0 :: hs) db line, none) := by
  unfold rowStep storeRowModel
  by_cases hempty : csvParseLine line = []
  · simp [hempty]
  · obtain ⟨v0, vs, hv⟩ : ∃ v0 vs, csvParseLine line = v0 :: vs := by
      cases hcase : csvParseLine line with
      | nil => exact absurd hcase hempty
      | cons a b => exact ⟨a, b, rfl⟩
    simp only [hv, reduceIte, if_neg hcc]
    rw [lookupFirst_buildRowDict h0 hs v0 vs hnd]
    simp

/-- With a duplicate-free nonempty header and a nonzero progress interval,
the whole loop completes without error and performs exactly one store per
non-blank line, ragged lines included. -/
theorem processLines_success (h0 : String) (hs : List String) (cc : Nat)
    (hnd : (h0 :: hs).Nodup) (hcc : cc ≠ 0) :
    ∀ (lines : List String) (db : Db) (ln : Nat),
      processLines (h0 :: hs) cc db ln lines =
        (lines.foldl (storeRowModel (h0 :: hs)) db, none) := by
  intro lines
  induction lines with
  | nil => intro db ln; rfl
  | cons l rest ih =>
    intro db ln
    simp only [processLines, rowStep_success h0 hs cc db ln l hnd hcc]
    rw [ih]
    simp

/-- Claim C2 (row-failure isolation) fails on the code: in a source whose
first data row raises (here via the zero progress interval), the `try`
wrapping the whole loop ends processing, the handler's log call itself
raises `IndexError` (its format string uses indices 1 and 2 with two
arguments), and rows 2 and 3 are never stored — the keyspace stays empty
and `store_csv` propagates the `IndexError`. -/
theorem c2_row_failure_aborts_run :
    store_csv ⟨[], 0⟩ (some "k,v\n1,a\n2,b\n3,c\n") =
      (⟨[], 0⟩, Except.error PyError.indexError) ∧
    pyFormatIndices [1, 2] 2 = Except.error PyError.indexError := by
  exact ⟨rfl, rfl⟩

/-- Claim C3 (query scenario) fails on the code: on the exact spec scenario
(header `id,name,amount`, rows `1,alice,10`, `1,bob,20`, `2,carl,5`) the file
has 4 newlines, so `check_count = round(4 div 20, -2) = 0`, the first row
raises `ZeroDivisionError`, the broken error-log format raises `IndexError`,
nothing is stored, and every `get_records` query returns the empty list. -/
theorem c3_scenario_store_crashes :
    store_csv ⟨[], 0⟩ (some "id,name,amount\n1,alice,10\n1,bob,20\n2,carl,5\n") =
      (⟨[], 0⟩, Except.error PyError.indexError) ∧
    (get_records ⟨[], 0⟩ "1").2 = Except.ok [] ∧
    (get_records ⟨[], 0⟩ "2").2 = Except.ok [] ∧
    (get_records ⟨[], 0⟩ "3").2 = Except.ok [] := by
  exact ⟨rfl, rfl, rfl, rfl⟩

/-- Claim C4 (namespace full-replace): the keyspace left by `store_csv` is
independent of the prior state — `flushdb` runs before anything else — so
after storing source A and then source B, the keyspace is exactly what
storing B into a fresh state produces. -/
theorem c4_store_full_replace :
    (∀ (st₁ st₂ : RedisState) (src : Option String),
      ((store_csv st₁ src).1).db = ((store_csv st₂ src).1).db) ∧
    (∀ (st : RedisState) (a b : String),
      ((store_csv (store_csv st (some a)).1 (some b)).1).db =
        ((store_csv ⟨[], 0⟩ (some b)).1).db) := by
  have key : ∀ (st₁ st₂ : RedisState) (src : Option String),
      ((store_csv st₁ src).1).db = ((store_csv st₂ src).1).db := by
    intro st₁ st₂ src
    cases src with
    | none => rfl
    | some raw =>
      simp only [store_csv]
      split
      · rfl
      split <;> rfl
  exact ⟨key, fun st a b => key _ _ (some b)⟩

/-- Claim C5 (snapshot on completion) fails on the code: a run with no row
failures requests exactly one background save, but a run in which any row
raised never reaches `bgsave` — the handler's broken log formatting raises
`IndexError` first — so the snapshot count stays 0 and the call errors. -/
theorem c5_bgsave_skipped_on_row_failure :
    (store_csv ⟨[], 0⟩ (some "a,b\n")).1.bgsaves = 1 ∧
    (store_csv ⟨[], 0⟩ (some "a,b\n")).2 = Except.ok () ∧
    (store_csv ⟨[], 0⟩ (some "h,x\np,q\n")).1.bgsaves = 0 ∧
    (store_csv ⟨[], 0⟩ (some "h,x\np,q\n")).2 = Except.error PyError.indexError := by
  exact ⟨rfl, rfl, rfl, rfl⟩

/-- Claim C6 (fail-fast construction): against an unreachable store the
constructor's eagerly evaluated `info('server')` call raises
`redis.RedisError`, and `__init__` exits the process with code 1 — nonzero —
before any source is touched (construction takes no source argument). -/
theorem c6_init_fail_fast :
    csv2redisInit false = InitOutcome.exited 1 ∧
    redisInfoServer false = Except.error PyError.redisError ∧ (1 : Nat) ≠ 0 := by
  exact ⟨rfl, rfl, by decide⟩

/-- Claim C7 as stated fails on the code: on a small source with exactly one
ragged row (`2` against header `p,q`), the zero progress interval makes the
first row raise, so the other rows are not ingested at all — the keyspace
ends empty and the call errors. -/
theorem c7_counterexample_small_source_aborts :
    store_csv ⟨[], 0⟩ (some "p,q\n1,x\n2\n3,z\n") =
      (⟨[], 0⟩, Except.error PyError.indexError) ∧
    dbLrangeAll ((store_csv ⟨[], 0⟩ (some "p,q\n1,x\n2\n3,z\n")).1).db "1" = [] := by
  exact ⟨rfl, rfl⟩

/-- Claim C7, amended: when the progress interval is nonzero (sources large
enough that `round(newlines div 20, -2) > 0`) and the header is nonempty and
duplicate-free, a row whose value count mismatches the header does not
abort any row — but it is not skipped either: every non-blank line, ragged
or not, is encoded (missing fields as `null`, extra values under the `null`
rest key) and stored under its first value. -/
theorem c7_ragged_row_stored (h0 : String) (hs : List String) (cc : Nat)
    (db : Db) (ln : Nat) (lines : List String)
    (hnd : (h0 :: hs).Nodup) (hcc : cc ≠ 0) :
    processLines (h0 :: hs) cc db ln lines =
      (lines.foldl (storeRowModel (h0 :: hs)) db, none) :=
  processLines_success h0 hs cc hnd hcc lines db ln

/-- Witness for the amended C7: a header `a,b` with rows `1,x`, ragged `2`,
`3,z` and interval 100 stores one blob under each of the keys `1`, `2`,
`3` — the ragged row contributes a group of its own. -/
theorem c7_ragged_row_stored_witness :
    ((["a", "b"] : List String).Nodup ∧ (100 : Nat) ≠ 0) ∧
    processLines ["a", "b"] 100 [] 2 ["1,x", "2", "3,z"] =
      (["1,x", "2", "3,z"].foldl (storeRowModel ["a", "b"]) [], none) ∧
    ((["1,x", "2", "3,z"].foldl (storeRowModel ["a", "b"]) []).map
      (fun p => (p.1, p.2.length))) = [("1", 1), ("2", 1), ("3", 1)] :=
  ⟨⟨by decide, by decide⟩,
    c7_ragged_row_stored "a" ["b"] 100 [] 2 ["1,x", "2", "3,z"] (by decide) (by decide),
    by decide⟩

/-- Claim C8 (progress reporting never causes failure) fails on the code:
for a two-line source the newline count is 2, `check_count` is 0, the
progress modulo raises `ZeroDivisionError` on the first row, and the whole
run aborts (as `IndexError`, after the broken log formatting) with nothing
stored. -/
theorem c8_progress_interval_zero_crashes :
    checkCount (getRecordCountModel "c,d\nx,y\n") = 0 ∧
    processLines ["c", "d"] 0 [] 2 ["x,y"] = ([], some PyError.zeroDivisionError) ∧
    store_csv ⟨[], 0⟩ (some "c,d\nx,y\n") = (⟨[], 0⟩, Except.error PyError.indexError) := by
  exact ⟨rfl, rfl, rfl⟩

/-- Claim C9 (clear precedes open): when the source cannot be opened,
`store_csv` still clears the keyspace first — the call raises
`SourceOpenError` with the database already emptied and no snapshot
requested. -/
theorem c9_flush_precedes_open (st : RedisState) :
    store_csv st none = (⟨[], st.bgsaves⟩, Except.error PyError.sourceOpenError) := rfl

/-- Claim C10 (query is read-only): `get_records` performs only the
full-range read and pure decoding; the store state after any call is the
state before it. -/
theorem c10_get_records_read_only (st : RedisState) (key : String) :
    (get_records st key).1 = st := by
  simp only [get_records]
  split <;> rfl
